import Mathlib

/-!
Verification development for the `linearizer-vsextension` repository.

The Python sources (`src/python/linearizer.py`, `src/python/tracer.py`,
`src/python/find_call_sites.py`) are shallowly embedded below.  Pure string
and list manipulations are translated directly; values produced by the
environment (the file system, `json.loads`, `difflib.SequenceMatcher.ratio`,
`ast.unparse` availability, the debugger worker) are threaded as explicit
oracle parameters, so every definition stays executable.

Python strings are modelled over ASCII `Char` lists (all inputs the claims
touch are ASCII); regular expressions used by the sources are compiled by
hand into scanners that implement exactly the backtracking behaviour of the
original pattern, documented at each definition.
-/

set_option maxRecDepth 4096

/-! ## Python-style character and string helpers -/

/-- Characters matched by the `str.strip()` default set and by the regex
class `\s` on the ASCII inputs used here. -/
def isPySpaceC (c : Char) : Bool :=
  c == ' ' || c == '\t' || c == '\n' || c == '\r' || c == '\x0b' || c == '\x0c'

/-- First character of a Python identifier, regex class `[A-Za-z_]`. -/
def identStartC (c : Char) : Bool := c.isAlpha || c == '_'

/-- Identifier continuation character, regex class `\w` (ASCII model). -/
def identC (c : Char) : Bool := c.isAlpha || c.isDigit || c == '_'

/-- Boolean membership, modelling Python's `in` on lists and sets. -/
def memb {α : Type} [DecidableEq α] (a : α) (l : List α) : Bool :=
  l.any (fun x => decide (x = a))

/-- Concatenation of a list of lists (kept local to stay version-stable). -/
def listFlat {α : Type} : List (List α) → List α
  | [] => []
  | l :: ls => l ++ listFlat ls

/-- `str.strip()` on a character list. -/
def pyStripList (cs : List Char) : List Char :=
  ((cs.dropWhile isPySpaceC).reverse.dropWhile isPySpaceC).reverse

/-- Python `str.strip()`. -/
def pyStrip (s : String) : String := String.mk (pyStripList s.toList)

/-- Python `str.lower()` (ASCII model). -/
def pyLower (s : String) : String := String.mk (s.toList.map Char.toLower)

/-- Python `str.lstrip("/")`. -/
def pyLstripSlash (s : String) : String :=
  String.mk (s.toList.dropWhile (fun c => c == '/'))

/-- Python `str.startswith` (kernel-reducible list form). -/
def pyStartsWith (s pre : String) : Bool := pre.toList.isPrefixOf s.toList

/-- Python `str.endswith` (kernel-reducible list form). -/
def pyEndsWith (s suf : String) : Bool := suf.toList.isSuffixOf s.toList

/-- Auxiliary scanner for `str.split("/")`. -/
def splitSlashAux : List Char → List Char → List String
  | [], acc => [String.mk acc.reverse]
  | '/' :: rest, acc => String.mk acc.reverse :: splitSlashAux rest []
  | c :: rest, acc => splitSlashAux rest (c :: acc)

/-- Python `s.split("/")`. -/
def splitSlash (s : String) : List String := splitSlashAux s.toList []

/-- Python substring containment `sub in hay`. -/
def containsSub : List Char → List Char → Bool
  | hay, sub =>
    sub.isPrefixOf hay ||
      match hay with
      | [] => false
      | _ :: t => containsSub t sub

/-- Auxiliary scanner for Python `str.split("::")`: leftmost, non-overlapping. -/
def splitDCAux : List Char → List Char → List String
  | [], acc => [String.mk acc.reverse]
  | ':' :: ':' :: rest, acc => String.mk acc.reverse :: splitDCAux rest []
  | c :: rest, acc => splitDCAux rest (c :: acc)

/-- Python `s.split("::")`. -/
def splitDC (s : String) : List String := splitDCAux s.toList []

/-! ## linearizer.py — hunk classification (CSA)

Regexes from the source:
`PY_FUNC_DEF = ^\s*def\s+([A-Za-z_]\w*)\s*\(`,
`CALL_RE = [A-Za-z_]\w*\s*\(`,
`DEF_LINE_RE = ^\s*def\s+[A-Za-z_]\w*\s*\((.*)\)\s*(?:->\s*(.*))?:\s*$`.
-/

/-- `PY_FUNC_DEF.match(line)`: returns the captured function name.  The
pattern has no backtracking choice points (all literals and maximal runs
followed by characters outside the class), so maximal-munch scanning is
exact. -/
def pyFuncDefName (cs : List Char) : Option String :=
  match cs.dropWhile isPySpaceC with
  | 'd' :: 'e' :: 'f' :: rest =>
    match rest with
    | c :: _ =>
      if isPySpaceC c then
        match rest.dropWhile isPySpaceC with
        | c2 :: r3 =>
          if identStartC c2 then
            match (r3.dropWhile identC).dropWhile isPySpaceC with
            | '(' :: _ => some (String.mk (c2 :: r3.takeWhile identC))
            | _ => none
          else none
        | [] => none
      else none
    | [] => none
  | _ => none

/-- `CALL_RE.search(line)`: an identifier run followed (after optional
whitespace) by `(` somewhere in the line.  Shortening the greedy `\w*` or
`\s*` runs always places an identifier or whitespace character where `(`
is required, so greedy maximal-munch without backtracking is exact. -/
def callSearch : List Char → Bool
  | [] => false
  | c :: rest =>
    (if identStartC c then
      match (rest.dropWhile identC).dropWhile isPySpaceC with
      | '(' :: _ => true
      | _ => false
    else false) || callSearch rest

/-- Tail check for `DEF_LINE_RE` after the closing parenthesis:
`\s*(?:->\s*(.*))?:\s*$` matches a remainder iff, after trimming
whitespace at both ends, it is exactly `:` (group absent) or starts with
`->` and ends with `:` (group present; `(.*)` absorbs the middle). -/
def tailMatchesArrow (t : List Char) : Bool :=
  let tt := pyStripList t
  tt == [':'] || (tt.take 2 == ['-', '>'] && tt.getLast? == some ':')

/-- Backtracking of the greedy `(.*)\)` in `DEF_LINE_RE`: the parameter
text runs up to the last `)` whose remainder satisfies `tailMatchesArrow`. -/
def findParamsSplit : List Char → Option (List Char)
  | [] => none
  | c :: rest =>
    match findParamsSplit rest with
    | some ps => some (c :: ps)
    | none => if c == ')' && tailMatchesArrow rest then some [] else none

/-- `DEF_LINE_RE.match(line)`: returns the raw parameter text (group 1). -/
def defLineParamsOf (cs : List Char) : Option (List Char) :=
  match cs.dropWhile isPySpaceC with
  | 'd' :: 'e' :: 'f' :: rest =>
    match rest with
    | c :: _ =>
      if isPySpaceC c then
        match rest.dropWhile isPySpaceC with
        | c2 :: r3 =>
          if identStartC c2 then
            match (r3.dropWhile identC).dropWhile isPySpaceC with
            | '(' :: inner => findParamsSplit inner
            | _ => none
          else none
        | [] => none
      else none
    | [] => none
  | _ => none

/-- Characters allowed inside the annotation body class `[^,=\)\]]`. -/
def annBodyC (c : Char) : Bool :=
  !(c == ',' || c == '=' || c == ')' || c == ']')

/-- `re.sub(r"\s*:\s*[^,=\)\]]+", "", params_text)`: delete every leftmost
match (optional whitespace, a colon, optional whitespace, then a nonempty
run of non-`,=)]` characters, greedy).  Fuel-based structural recursion:
each step consumes at least one input character, so fuel equal to the
input length (supplied by `stripAnnSub`) never runs out. -/
def stripAnnSubF : Nat → List Char → List Char
  | 0, cs => cs
  | _ + 1, [] => []
  | fuel + 1, c :: rest =>
    match (c :: rest).dropWhile isPySpaceC with
    | ':' :: r2 =>
      let r3 := r2.dropWhile isPySpaceC
      let body := r3.takeWhile annBodyC
      if body.isEmpty then c :: stripAnnSubF fuel rest
      else stripAnnSubF fuel (r3.drop body.length)
    | _ => c :: stripAnnSubF fuel rest

/-- The annotation-stripping substitution at adequate fuel. -/
def stripAnnSub (cs : List Char) : List Char := stripAnnSubF cs.length cs

/-- `re.sub(r"\s+", " ", res)`: collapse whitespace runs to single spaces
(the flag records whether the previous character was part of a run). -/
def collapseWsAux : Bool → List Char → List Char
  | _, [] => []
  | prevSpace, c :: rest =>
    if isPySpaceC c then
      if prevSpace then collapseWsAux true rest
      else ' ' :: collapseWsAux true rest
    else c :: collapseWsAux false rest

/-- `_strip_type_annotations_from_params` from linearizer.py. -/
def strip_type_annotations_from_params (paramsText : List Char) : String :=
  String.mk (pyStripList (collapseWsAux false (stripAnnSub paramsText)))

/-- `_normalize_def_line` from linearizer.py. -/
def normalize_def_line (line : String) : Option String :=
  match defLineParamsOf line.toList with
  | none => none
  | some paramsText =>
    let paramsNoAnn := strip_type_annotations_from_params paramsText
    let name := (pyFuncDefName line.toList).getD ""
    some ("def " ++ name ++ "(" ++ paramsNoAnn ++ ")")

/-- `_def_line_change_is_trivial` from linearizer.py.  `ratio` is the
environment's `difflib.SequenceMatcher(None, a, b).ratio()`. -/
def def_line_change_is_trivial (ratio : String → String → Rat)
    (removed added : String) : Bool :=
  match normalize_def_line removed, normalize_def_line added with
  | some nr, some na =>
    if nr = na then true else decide (ratio nr na ≥ (85 : Rat) / 100)
  | _, _ => false

/-- The nested pairing loop of `is_important_hunk`: counts
`(def_pairs_checked, trivial_pairs)`. -/
def defPairsCounts (ratio : String → String → Rat)
    (added removed : List String) : Nat × Nat :=
  removed.foldl (fun acc r =>
    match pyFuncDefName ((r.drop 1).toList) with
    | none => acc
    | some rname =>
      added.foldl (fun acc2 a =>
        match pyFuncDefName ((a.drop 1).toList) with
        | none => acc2
        | some aname =>
          if aname = rname then
            (acc2.1 + 1,
             acc2.2 + (if def_line_change_is_trivial ratio (r.drop 1) (a.drop 1)
                       then 1 else 0))
          else acc2) acc) (0, 0)

/-- The `non_def_added` collection of `is_important_hunk`. -/
def nonDefAdded (added : List String) : List String :=
  added.filterMap (fun a =>
    let aLine := pyStrip (a.drop 1)
    if aLine = "" then none
    else if (pyFuncDefName aLine.toList).isSome then none
    else if pyStartsWith aLine "from " || pyStartsWith aLine "import " then none
    else if pyStartsWith aLine "#" then none
    else some aLine)

/-- `l.startswith("+") and not l.startswith("+++")`. -/
def isAddedLine (l : String) : Bool :=
  pyStartsWith l "+" && !(pyStartsWith l "+++")

/-- `l.startswith("-") and not l.startswith("---")`. -/
def isRemovedLine (l : String) : Bool :=
  pyStartsWith l "-" && !(pyStartsWith l "---")

/-- Body of `is_important_hunk` once `added` and `removed` are computed. -/
def importantCore (ratio : String → String → Rat)
    (added removed : List String) : Bool :=
  if added.isEmpty && removed.isEmpty then false
  else if added.length + removed.length = 1 then
    let line := (added.headD (removed.headD "")).drop 1
    if (pyFuncDefName line.toList).isSome then false
    else if callSearch line.toList then true
    else false
  else
    let counts := defPairsCounts ratio added removed
    let nda := nonDefAdded added
    if counts.1 > 0 && counts.1 = counts.2 && nda.isEmpty then false
    else if added.any (fun a => callSearch ((a.drop 1).toList)) then true
    else true

/-- `is_important_hunk` from linearizer.py. -/
def is_important_hunk (ratio : String → String → Rat)
    (hunkLines : List String) : Bool :=
  importantCore ratio (hunkLines.filter isAddedLine)
    (hunkLines.filter isRemovedLine)

/-- A parsed diff file: path plus its hunks (line lists). -/
structure ParsedFile where
  file : String
  hunks : List (List String)

/-- The filtering step at the end of `parse_diff`: keep only files that
retain at least one important hunk, and inside them only those hunks. -/
def filterImportantFiles (ratio : String → String → Rat)
    (files : List ParsedFile) : List ParsedFile :=
  files.filterMap (fun f =>
    let ih := f.hunks.filter (fun h => is_important_hunk ratio h)
    if ih.isEmpty then none else some ⟨f.file, ih⟩)

/-- `find_changed_functions` from linearizer.py (set-of-names modelled as a
list; only membership is used downstream). -/
def find_changed_functions (files : List ParsedFile) :
    List (String × List String) :=
  files.filterMap (fun f =>
    let funcs := listFlat (f.hunks.map (fun h => h.filterMap (fun line =>
      if pyStartsWith line "+" || pyStartsWith line " " then
        pyFuncDefName ((line.drop 1).toList)
      else none)))
    if funcs.isEmpty then none else some (f.file, funcs))

/-! ## linearizer.py — call-graph construction (CSA) -/

/-- Digits/letters/underscore, regex class `[a-zA-Z0-9_]`. -/
def qualIdentC (c : Char) : Bool := c.isAlpha || c.isDigit || c == '_'

/-- After `[^:]+` has consumed `pre`, try to match the rest of the pattern
`\.py::[a-zA-Z0-9_]+\(` against `rem`.  Returns the matched group text
(after the leading `/`) and the number of characters consumed from `rem`. -/
def qualTail (pre : List Char) (rem : List Char) : Option (List Char × Nat) :=
  match rem with
  | '.' :: 'p' :: 'y' :: ':' :: ':' :: r2 =>
    let idRun := r2.takeWhile qualIdentC
    if idRun.isEmpty then none
    else
      match r2.drop idRun.length with
      | '(' :: _ =>
        some (pre ++ ('.' :: 'p' :: 'y' :: ':' :: ':' :: idRun),
              5 + idRun.length + 1)
      | _ => none
  | _ => none

/-- Greedy backtracking for `[^:]+` in `CALL_RE_WITH_PATH`-style pattern
`(/[^:]+\.py::[a-zA-Z0-9_]+)\(`: try the longest non-colon run first and
shrink on failure.  Returns group text (after `/`) and characters consumed
from the input after the `/`. -/
def qualTryKs (rest : List Char) : Nat → Option (List Char × Nat)
  | 0 => none
  | k + 1 =>
    match qualTail (rest.take (k + 1)) (rest.drop (k + 1)) with
    | some (g, m) => some (g, (k + 1) + m)
    | none => qualTryKs rest k

/-- `re.findall(r"(/[^:]+\.py::[a-zA-Z0-9_]+)\(", body)`: leftmost
non-overlapping matches, scanning resumes after each match.  Fuel-based
structural recursion; every step consumes at least one character, so fuel
equal to the input length (supplied by `regexFindCalls`) never runs out. -/
def regexFindCallsF : Nat → List Char → List String
  | 0, _ => []
  | _ + 1, [] => []
  | fuel + 1, c :: rest =>
    if c = '/' then
      match qualTryKs rest (rest.takeWhile (fun ch => !(ch == ':'))).length with
      | some (g, m) => String.mk ('/' :: g) :: regexFindCallsF fuel (rest.drop m)
      | none => regexFindCallsF fuel rest
    else regexFindCallsF fuel rest

/-- All qualified call tokens found by the pattern, in order. -/
def regexFindCalls (body : List Char) : List String :=
  regexFindCallsF body.length body

/-- `extract_calls_from_body` from linearizer.py: the qualified call tokens
of the body with every occurrence of the function's own id removed. -/
def extract_calls_from_body (body : String) (currentFn : String) : List String :=
  (regexFindCalls body.toList).filter (fun c => !(c == currentFn))

/-- `build_call_graph` from linearizer.py.  The Python `functions` dict is
modelled as an association list in insertion order with distinct keys. -/
def build_call_graph (functions : List (String × String)) :
    List (String × List String) :=
  let allFuncs := functions.map Prod.fst
  functions.map (fun fb =>
    (fb.1, (extract_calls_from_body fb.2 fb.1).filter (fun c => memb c allFuncs)))

/-- `find_parents` from linearizer.py: functions not called by any other
function.  The Python version returns `list(set(keys) - called)`; only
membership of the result is observable, and this filter has the same
members. -/
def find_parents (graph : List (String × List String)) : List String :=
  let called := listFlat (graph.map Prod.snd)
  (graph.map Prod.fst).filter (fun f => !(memb f called))

/-! ## Repository walks (C8): CSA untracked files, SI index, CSL scan -/

mutual
/-- A file-system subtree: directory entries are walked in list order (the
entry list is its own inductive so that the walks below are structurally
recursive and computable). -/
inductive FSEntry where
  | file (name : String)
  | dir (name : String) (entries : FSEntries)

/-- A directory's entry list. -/
inductive FSEntries where
  | nil
  | cons (e : FSEntry) (rest : FSEntries)
end

/-- The exclusion set hard-coded in `find_call_sites.py`. -/
def excludedDirs : List String :=
  [".git", "__pycache__", ".venv", "venv", "env", "node_modules"]

/-- Join path components with `/`. -/
def joinPath (comps : List String) : String := String.intercalate "/" comps

mutual
/-- The `os.walk` of `find_call_sites` restricted to one entry, with the
pruning `dirs[:] = [d for d in dirs if d not in {...}]` applied to every
directory before it is entered. -/
def cslWalkEntry (relDir : List String) : FSEntry → List (List String)
  | .file n => [relDir ++ [n]]
  | .dir n es =>
    if memb n excludedDirs then [] else cslWalkEntries (relDir ++ [n]) es

/-- Relative paths (as component lists) of every file the scan visits.
`os.walk` yields each directory's files before recursing; only membership
of the result is used below. -/
def cslWalkEntries (relDir : List String) : FSEntries → List (List String)
  | .nil => []
  | .cons e rest => cslWalkEntry relDir e ++ cslWalkEntries relDir rest
end

/-- The per-file candidate filter of `find_call_sites`: `.py` files other
than the target function's own file. -/
def csl_candidate_files (rootEntries : FSEntries) (targetRel : List String) :
    List (List String) :=
  (cslWalkEntries [] rootEntries).filter
    (fun p => pyEndsWith ((p.getLast? ).getD "") ".py" && !(p == targetRel))

/-- `find_call_sites` from find_call_sites.py.  Reading and analysing one
file (`find_function_calls_in_file`) is an environment action modelled by
the oracle `perFile`; parse failures yield `[]` there just as in the
source. -/
def find_call_sites {α : Type} (rootEntries : FSEntries)
    (targetFileIsFile : Bool) (perFile : List String → List α)
    (targetFunctionId : String) : List α :=
  if !(containsSub targetFunctionId.toList (String.toList "::")) then []
  else
    let pathPart := (splitDC targetFunctionId).headD ""
    let rel := if pyStartsWith pathPart "/" then pathPart.drop 1 else pathPart
    let targetRel := splitSlash rel
    if !targetFileIsFile then []
    else listFlat ((csl_candidate_files rootEntries targetRel).map perFile)

/-- The name→files index of `build_repo_index`: association list keyed by
function name, `setdefault(name, []).append(rel)` semantics. -/
def indexAdd (idx : List (String × List String)) (name rel : String) :
    List (String × List String) :=
  if memb name (idx.map Prod.fst) then
    idx.map (fun kv => if kv.1 = name then (kv.1, kv.2 ++ [rel]) else kv)
  else idx ++ [(name, [rel])]

/-- File pass of one `os.walk` step in `build_repo_index`: `.py` files whose
absolute path does not contain `/.venv/` or `/venv/` are parsed; the oracle
gives the top-level `FunctionDef` names of a file (`none` models a read or
parse exception, skipped by the source).  The Windows path variants of the
substring test are omitted (POSIX model). -/
def briFiles (oracle : String → Option (List String)) (repoRoot : String)
    (relDir : List String) : FSEntries →
    List (String × List String) → List (String × List String)
  | .nil, idx => idx
  | .cons (.dir _ _) rest, idx => briFiles oracle repoRoot relDir rest idx
  | .cons (.file n) rest, idx =>
    let idx2 :=
      if pyEndsWith n ".py" then
        let fullPath := repoRoot ++ "/" ++ joinPath (relDir ++ [n])
        if containsSub fullPath.toList (String.toList "/.venv/") ||
            containsSub fullPath.toList (String.toList "/venv/") then idx
        else
          match oracle (joinPath (relDir ++ [n])) with
          | some names =>
            names.foldl (fun a nm => indexAdd a nm (joinPath (relDir ++ [n]))) idx
          | none => idx
      else idx
    briFiles oracle repoRoot relDir rest idx2

/-- Directory recursion of `build_repo_index`'s walk.  The only pruning in
the source is `if ".git" in dirs: dirs.remove(".git")`, which removes the
first `.git` entry (tracked by the flag). -/
def briDirs (oracle : String → Option (List String)) (repoRoot : String) :
    List String → Bool → FSEntries →
    List (String × List String) → List (String × List String)
  | _, _, .nil, idx => idx
  | relDir, g, .cons (.file _) rest, idx =>
    briDirs oracle repoRoot relDir g rest idx
  | relDir, g, .cons (.dir n es) rest, idx =>
    if n = ".git" && !g then briDirs oracle repoRoot relDir true rest idx
    else
      briDirs oracle repoRoot relDir g rest
        (briDirs oracle repoRoot (relDir ++ [n]) false es
          (briFiles oracle repoRoot (relDir ++ [n]) es idx))

/-- `build_repo_index` from linearizer.py. -/
def build_repo_index (oracle : String → Option (List String))
    (repoRoot : String) (rootEntries : FSEntries) :
    List (String × List String) :=
  briDirs oracle repoRoot [] false rootEntries
    (briFiles oracle repoRoot [] rootEntries [])

/-- Resolution of an untracked path from `git status` against the working
tree, for `extract_new_python_files`. -/
inductive PathResolve where
  | missing
  | plainFile
  | directory (entries : FSEntries)

mutual
/-- One entry of the unpruned `os.walk` inside `collect_python_paths`. -/
def collectPyEntry (relDir : List String) : FSEntry → List String
  | .file n => if pyEndsWith n ".py" then [joinPath (relDir ++ [n])] else []
  | .dir n es => collectPyEntries (relDir ++ [n]) es

/-- Every `.py` file under the tree, no directory exclusions at all. -/
def collectPyEntries (relDir : List String) : FSEntries → List String
  | .nil => []
  | .cons e rest => collectPyEntry relDir e ++ collectPyEntries relDir rest
end

/-- `collect_python_paths` from `extract_new_python_files`. -/
def collect_python_paths (relPath : String) (resolve : String → PathResolve) :
    List String :=
  match resolve relPath with
  | .directory entries => collectPyEntries (splitSlash relPath) entries
  | .plainFile => if pyEndsWith relPath ".py" then [relPath] else []
  | .missing => []

/-- First occurrence split `path.split(" -> ", 1)`, returning the tail when
the separator occurs. -/
def splitOnceArrow : List Char → Option (List Char)
  | [] => none
  | c :: rest =>
    if (String.toList " -> ").isPrefixOf (c :: rest) then
      some ((c :: rest).drop 4)
    else splitOnceArrow rest

/-- `extract_new_python_files` from linearizer.py.  `statusOk` models
`git status --porcelain` succeeding with nonempty output whose lines are
`statusLines`; the Python set of results is modelled as a list (only
membership is used). -/
def extract_new_python_files (statusOk : Bool) (statusLines : List String)
    (resolve : String → PathResolve) : List String :=
  if !statusOk || statusLines.isEmpty then []
  else listFlat (statusLines.map (fun line =>
    if line = "" then []
    else
      let status := line.take 2
      let path0 := pyStrip (line.drop 3)
      let path := match splitOnceArrow path0.toList with
        | some after => String.mk after
        | none => path0
      if status = "??" || containsSub status.toList (String.toList "A") then
        collect_python_paths path resolve
      else []))

/-! ## tracer.py — static signature extraction (SI)

The Python AST nodes actually inspected by `get_function_signature` are
embedded below.  `hasUnparse` models `hasattr(ast, 'unparse')` (true on
CPython ≥ 3.9, selecting the first branch of `unparse_annotation` and
`unparse_default`). -/

/-- `ast.Constant` payloads used by the sources. -/
inductive PyConst where
  | noneC
  | intC (n : Int)
  | strC (s : String)
  | boolC (b : Bool)
deriving DecidableEq

/-- Annotation expression nodes handled by `unparse_annotation`. -/
inductive PyAnn where
  | nameA (id : String)
  | attrA (value : PyAnn) (attr : String)
  | constA (c : PyConst)
  | subscriptA (value : PyAnn) (slice : List PyAnn)

/-- Default-value expression nodes handled by `unparse_default` plus the
argument expressions evaluated by `extract_call_arguments`. -/
inductive PyExpr where
  | constE (c : PyConst)
  | nameE (id : String)
  | listE (elts : List PyExpr)
  | dictE
  | tupleE (elts : List PyExpr)
  | otherE

/-- JSON-representable values flowing through signature records and
argument lists. -/
inductive JVal where
  | str (s : String)
  | int (n : Int)
  | bool (b : Bool)
deriving DecidableEq

/-- A single ASCII apostrophe. -/
def quoteCh : String := String.mk [Char.ofNat 39]

/-- Python `repr` of the constants above (what `ast.unparse` prints for a
`Constant`). -/
def pyConstRepr : PyConst → String
  | .noneC => "None"
  | .intC n => toString n
  | .strC s => quoteCh ++ s ++ quoteCh
  | .boolC b => if b then "True" else "False"

/-- Python `str()` of the constants above. -/
def pyStrOfConst : PyConst → String
  | .noneC => "None"
  | .intC n => toString n
  | .strC s => s
  | .boolC b => if b then "True" else "False"

mutual
/-- `ast.unparse` on the annotation nodes above: dotted attributes,
subscripts printed as `base[e1, e2]`. -/
def pyUnparseAnn : PyAnn → String
  | .nameA id => id
  | .attrA v a => pyUnparseAnn v ++ "." ++ a
  | .constA c => pyConstRepr c
  | .subscriptA v sl =>
    pyUnparseAnn v ++ "[" ++ String.intercalate ", " (pyUnparseAnnList sl) ++ "]"

/-- `pyUnparseAnn` mapped over a subscript's element list. -/
def pyUnparseAnnList : List PyAnn → List String
  | [] => []
  | a :: rest => pyUnparseAnn a :: pyUnparseAnnList rest
end

/-- The `while isinstance(node, ast.Attribute)` chain of the manual
fallback: attribute names right-to-left, with the base name prepended only
when it is an `ast.Name`. -/
def attrParts : PyAnn → List String
  | .attrA v a => attrParts v ++ [a]
  | .nameA id => [id]
  | _ => []

/-- The pre-3.9 manual branch of `unparse_annotation`: names verbatim,
attributes dotted, constants via `str()`, subscripts reduced to the outer
constructor (`Name` id, recursively unparsed `Attribute`, else
`"Unknown"`). -/
def unparseAnnManual : PyAnn → String
  | .nameA id => id
  | .attrA v a => String.intercalate "." (attrParts (PyAnn.attrA v a))
  | .constA c => pyStrOfConst c
  | .subscriptA v _ =>
    match v with
    | .nameA id => id
    | .attrA v2 a2 => unparseAnnManual (PyAnn.attrA v2 a2)
    | _ => "Unknown"

/-- `unparse_annotation` from tracer.py. -/
def unparseAnn (hasUnparse : Bool) : Option PyAnn → Option String
  | none => none
  | some a => if hasUnparse then some (pyUnparseAnn a) else some (unparseAnnManual a)

mutual
/-- `ast.unparse` on the default-value nodes above (only the constructors
reachable from the embedded ASTs). -/
def pyUnparseExpr : PyExpr → String
  | .constE c => pyConstRepr c
  | .nameE id => id
  | .listE es => "[" ++ String.intercalate ", " (pyUnparseExprList es) ++ "]"
  | .dictE => "\x7b\x7d"
  | .tupleE es => "(" ++ String.intercalate ", " (pyUnparseExprList es) ++ ")"
  | .otherE => "<expr>"

/-- `pyUnparseExpr` mapped over an element list. -/
def pyUnparseExprList : List PyExpr → List String
  | [] => []
  | e :: rest => pyUnparseExpr e :: pyUnparseExprList rest
end

/-- The raw Python value of a constant, as stored in the signature record:
`None` collapses to an absent value exactly as in the source (where
`return default.value` returns `None`). -/
def constToJVal : PyConst → Option JVal
  | .noneC => none
  | .intC n => some (.int n)
  | .strC s => some (.str s)
  | .boolC b => some (.bool b)

/-- `unparse_default` from tracer.py.  With `ast.unparse` available every
default renders to its source text; the manual branch returns constant
values directly and records list/dict/tuple and all other defaults as
absent.  (The `ast.Str`/`ast.Num`/`ast.NameConstant` compatibility branches
are dead on any Python whose parser emits `ast.Constant`.) -/
def unparseDefault (hasUnparse : Bool) : Option PyExpr → Option JVal
  | none => none
  | some d =>
    if hasUnparse then some (.str (pyUnparseExpr d))
    else
      match d with
      | .constE c => constToJVal c
      | .listE _ => none
      | .dictE => none
      | .tupleE _ => none
      | _ => none

/-- One entry of `args.args`. -/
structure PyArg where
  arg : String
  ann : Option PyAnn

/-- The `ast.arguments` fields relevant here.  `get_function_signature`
reads only `args` and `defaults`; keyword-only arguments are carried so the
embedded ASTs stay faithful to the parsed source. -/
structure PyArguments where
  args : List PyArg
  defaults : List PyExpr
  kwonlyargs : List PyArg
  kwDefaults : List (Option PyExpr)

/-- Module-body statements inspected by the signature lookup. -/
inductive PyStmt where
  | functionDef (name : String) (args : PyArguments) (body : List PyStmt)
  | classDef (name : String) (body : List PyStmt)
  | passS

/-- `TOP_LEVEL_SENTINELS` membership test `is_top_level_entry_name`. -/
def is_top_level_entry_name (name : String) : Bool :=
  if name = "" then false
  else
    let t := pyLower (pyStrip name)
    t == "<top-level>" || t == "<module>"

/-- The four per-parameter lists produced by the extraction loop. -/
structure SigParts where
  params : List String
  types : List (Option String)
  defaults : List (Option JVal)
  required : List Bool

/-- The `for i, arg in enumerate(target_func.args.args)` loop of
`get_function_signature`: `self`/`cls` skipped for methods, annotation and
default rendered, `default_index = i - (total_args - defaults_count)`. -/
def extractParamsAux (hasUnparse isMethod : Bool) (total dc : Nat)
    (defaults : List PyExpr) : Nat → List PyArg → SigParts
  | _, [] => ⟨[], [], [], []⟩
  | i, a :: rest =>
    let r := extractParamsAux hasUnparse isMethod total dc defaults (i + 1) rest
    if isMethod && (a.arg == "self" || a.arg == "cls") then r
    else
      let t := unparseAnn hasUnparse a.ann
      let di : Int := (i : Int) - ((total : Int) - (dc : Int))
      if 0 ≤ di ∧ di < (dc : Int) then
        ⟨a.arg :: r.params, t :: r.types,
         unparseDefault hasUnparse (defaults.get? di.toNat) :: r.defaults,
         false :: r.required⟩
      else
        ⟨a.arg :: r.params, t :: r.types, none :: r.defaults, true :: r.required⟩

/-- `s.isFnNamed n`: the statement is `FunctionDef` with the given name. -/
def isFnNamed (n : String) : PyStmt → Bool
  | .functionDef m _ _ => m == n
  | _ => false

/-- The statement is `ClassDef` with the given name. -/
def isClsNamed (n : String) : PyStmt → Bool
  | .classDef m _ => m == n
  | _ => false

/-- `FunctionDef` or `ClassDef` (the filter for descending past a function
in the deep search). -/
def isFnOrCls : PyStmt → Bool
  | .functionDef _ _ _ => true
  | .classDef _ _ => true
  | _ => false

/-- The `len(fn_path) > 2` traversal of `get_function_signature`: at each
path element take the first `FunctionDef`/`ClassDef` with that name; a
final `ClassDef` is not a function (the source breaks with no target). -/
def findDeep : List String → List PyStmt → Option PyStmt
  | [], _ => none
  | p :: rest, nodes =>
    match nodes.find? (fun s => isFnNamed p s || isClsNamed p s) with
    | none => none
    | some s =>
      match s, rest with
      | .functionDef _ _ _, [] => some s
      | .functionDef _ _ b, _ :: _ => findDeep rest (b.filter isFnOrCls)
      | .classDef _ _, [] => none
      | .classDef _ b, _ :: _ => findDeep rest b
      | _, _ => none

/-- The AST search of `get_function_signature`: a top-level function for a
length-1 path; for length 2 first the class-method reading (first matching
`ClassDef` only), then the nested-function reading (first matching
`FunctionDef` only); deeper paths via `findDeep`. -/
def findTargetFn (tree : List PyStmt) : List String → Option PyStmt
  | [p] => tree.find? (isFnNamed p)
  | [a, b] =>
    let viaClass :=
      match tree.find? (isClsNamed a) with
      | some (.classDef _ cbody) => cbody.find? (isFnNamed b)
      | _ => none
    (match viaClass with
     | some f => some f
     | none =>
       match tree.find? (isFnNamed a) with
       | some (.functionDef _ _ fbody) => fbody.find? (isFnNamed b)
       | _ => none)
  | path => findDeep path tree

/-- Result of loading and parsing a source file, as seen by
`get_function_signature` (file lookup, read and `ast.parse` are
environment actions). -/
inductive FileRes where
  | notFound
  | parseFailed (msg : String)
  | parsed (body : List PyStmt)

/-- The value returned by `get_function_signature`: the full record of the
AST path, the `params`/`param_count`-only record of the dynamic `inspect`
fallback, or an error object. -/
inductive SigResult where
  | ok (params : List String) (paramTypes : List (Option String))
      (paramDefaults : List (Option JVal)) (paramRequired : List Bool)
  | okDynamic (params : List String)
  | sigError (msg : String)
deriving DecidableEq

/-- `get_function_signature` from tracer.py.  `fs` maps the lstripped
relative path to the parsed file; `dyn` models the import-and-`inspect`
fallback (`none` covers both an exception and a missing or non-callable
attribute). -/
def get_function_signature (hasUnparse : Bool) (fs : String → FileRes)
    (dyn : String → List String → Option (List String))
    (entry : String) : SigResult :=
  if containsSub entry.toList (String.toList "::") then
    match splitDC entry with
    | [] => .sigError "invalid entry id"
    | relPath0 :: fnPath =>
      if fnPath.length == 1 && is_top_level_entry_name (fnPath.headD "") then
        .ok [] [] [] []
      else
        let relPath := pyLstripSlash relPath0
        match fs relPath with
        | .notFound => .sigError ("file not found: " ++ relPath)
        | .parseFailed m => .sigError m
        | .parsed tree =>
          match findTargetFn tree fnPath with
          | some (.functionDef _ a _) =>
            let isMethod := fnPath.length == 2
            let parts := extractParamsAux hasUnparse isMethod
              a.args.length a.defaults.length a.defaults 0 a.args
            .ok parts.params parts.types parts.defaults parts.required
          | _ =>
            match dyn relPath fnPath with
            | some ps => .okDynamic ps
            | none =>
              .sigError ("function " ++ String.intercalate "::" fnPath ++
                " not found")
  else .sigError "invalid entry id"

/-! ## tracer.py — call-argument reconstruction (`extract_call_arguments`)

Locating the call line, parsing it, and matching the callee name yield a
`Call` node; those steps read the file system and are threaded as the
`callNode` argument (`Except.error` carries each early error object of the
source).  Evaluating one argument expression with `eval` against the
provided locals/globals is the oracle `evalExpr` (`none` models an
exception). -/

/-- `params` of a signature result as read by
`sig_result.get("params", [])`. -/
def sigParams : SigResult → List String
  | .ok p _ _ _ => p
  | .okDynamic p => p
  | .sigError _ => []

/-- `param_defaults` as read by `sig_result.get("param_defaults", [])`
(absent on the dynamic record and on errors). -/
def sigDefaults : SigResult → List (Option JVal)
  | .ok _ _ d _ => d
  | _ => []

/-- `sig_result.get('error', 'unknown error')`. -/
def sigErrText : SigResult → String
  | .sigError m => m
  | _ => "unknown error"

/-- `params_with_defaults` from `extract_call_arguments`: parameter names
whose rendered default is not `None` (guarded by both lists being
truthy). -/
def params_with_defaults (accepted : List String)
    (paramDefaults : List (Option JVal)) : List String :=
  if accepted.isEmpty || paramDefaults.isEmpty then []
  else
    paramDefaults.enum.filterMap (fun idv =>
      if idv.1 < accepted.length && idv.2.isSome then
        some (accepted.getD idv.1 "")
      else none)

/-- The positional-argument evaluation loop: evaluated values are appended
in order; an evaluation failure skips the value and, when the parameter at
that index is known and has no rendered default, records it as missing.
Returns `(args_list, missing_required)`. -/
def evalPositionalArgs (accepted pwd : List String) :
    Nat → List (Option JVal) → List JVal × List String
  | _, [] => ([], [])
  | i, some v :: rest =>
    let r := evalPositionalArgs accepted pwd (i + 1) rest
    (v :: r.1, r.2)
  | i, none :: rest =>
    let r := evalPositionalArgs accepted pwd (i + 1) rest
    ((r.1),
     (if !accepted.isEmpty && i < accepted.length &&
          !(memb (accepted.getD i "") pwd) then [accepted.getD i ""] else [])
       ++ r.2)

/-- The keyword-argument evaluation loop (`kw.arg` of `None` models a
`**`-unpacking and is skipped).  Keys are distinct in any parseable call,
so the Python dict is the association list in evaluation order.  Returns
`(kwargs_dict, missing_required)`. -/
def evalKeywordArgs (accepted pwd : List String) :
    List (Option String × Option JVal) → List (String × JVal) × List String
  | [] => ([], [])
  | (none, _) :: rest => evalKeywordArgs accepted pwd rest
  | (some k, some v) :: rest =>
    let r := evalKeywordArgs accepted pwd rest
    ((k, v) :: r.1, r.2)
  | (some k, none) :: rest =>
    let r := evalKeywordArgs accepted pwd rest
    (r.1,
     (if memb k accepted && !(memb k pwd) then [k] else []) ++ r.2)

/-- The filtering block shared verbatim by `main` (lines 1184–1199) and
`extract_call_arguments` (lines 507–530): keyword arguments outside the
parameter list are dropped, positional arguments are truncated to the
number of parameters not already supplied by keyword. -/
def filter_args_for_signature (params : List String) (argsList : List JVal)
    (kwargsDict : List (String × JVal)) : List JVal × List (String × JVal) :=
  let filteredKwargs := kwargsDict.filter (fun kv => memb kv.1 params)
  let positionalParamsNotInKwargs :=
    params.filter (fun p => !(memb p (filteredKwargs.map Prod.fst)))
  let maxPositional := positionalParamsNotInKwargs.length
  let filteredArgs :=
    if argsList.length > maxPositional then argsList.take maxPositional
    else argsList
  (filteredArgs, filteredKwargs)

/-- The post-filter re-check loop of `extract_call_arguments`: every
required parameter bound neither by keyword nor positionally is appended to
`missing_required` (skipping duplicates). -/
def recheckMissing (pwd fkKeys : List String) (faLen : Nat) :
    List (Nat × String) → List String → List String
  | [], ms => ms
  | ip :: rest, ms =>
    recheckMissing pwd fkKeys faLen rest
      (if !(memb ip.2 pwd) && !(memb ip.2 fkKeys) && faLen ≤ ip.1 &&
          !(memb ip.2 ms) then ms ++ [ip.2] else ms)

/-- The argument-evaluation and filtering phase of `extract_call_arguments`
(everything after the `Call` node is located), returning either the error
object or `(args, kwargs)`. -/
def extract_core (sig : SigResult) (posEvals : List (Option JVal))
    (kwEvals : List (Option String × Option JVal)) :
    Except String (List JVal × List (String × JVal)) :=
  let accepted := sigParams sig
  let pwd := params_with_defaults accepted (sigDefaults sig)
  let pos := evalPositionalArgs accepted pwd 0 posEvals
  let kw := evalKeywordArgs accepted pwd kwEvals
  let missingRequired := pos.2 ++ kw.2
  if !accepted.isEmpty then
    let fr := filter_args_for_signature accepted pos.1 kw.1
    let missingFinal :=
      recheckMissing pwd (fr.2.map Prod.fst) fr.1.length
        accepted.enum missingRequired
    if !missingFinal.isEmpty then
      .error "Required parameters could not be extracted and will be missing"
    else .ok (fr.1, fr.2)
  else
    .error ("Could not get function signature to filter arguments: " ++
      sigErrText sig)

/-- `extract_call_arguments` from tracer.py (static mode), composed from
the call-node location phase, the signature lookup of §4.1, and the
evaluation/filtering core. -/
def extract_call_arguments (hasUnparse : Bool) (fs : String → FileRes)
    (dyn : String → List String → Option (List String)) (entry : String)
    (callNode : Except String (List PyExpr × List (Option String × PyExpr)))
    (evalExpr : PyExpr → Option JVal) :
    Except String (List JVal × List (String × JVal)) :=
  match callNode with
  | .error e => .error e
  | .ok node =>
    let sig := get_function_signature hasUnparse fs dyn entry
    extract_core sig (node.1.map evalExpr)
      (node.2.map (fun kw => (kw.1, evalExpr kw.2)))

/-- The argument filtering performed by `main` before invoking the entry
(lines 1178–1206): filter on a successful signature, pass through
unfiltered on a signature error. -/
def main_argument_filtering (sig : SigResult) (argsList : List JVal)
    (kwargsDict : List (String × JVal)) : List JVal × List (String × JVal) :=
  match sig with
  | .sigError _ => (argsList, kwargsDict)
  | s => filter_args_for_signature (sigParams s) argsList kwargsDict

/-- Python binds parameter `i` positionally iff `i < len(args)` and by
keyword iff its name is among the kwargs keys; both at once is the
`TypeError: multiple values` situation the spec calls "bound twice". -/
def boundTwiceAux (argsLen : Nat) (kwKeys : List String) :
    Nat → List String → Bool
  | _, [] => false
  | i, p :: rest =>
    (decide (i < argsLen) && memb p kwKeys) ||
      boundTwiceAux argsLen kwKeys (i + 1) rest

/-- Some parameter of `params` is bound both positionally and by keyword
by the call `(args, kwargs)`. -/
def param_bound_twice (params : List String) (args : List JVal)
    (kwargs : List (String × JVal)) : Bool :=
  boundTwiceAux args.length (kwargs.map Prod.fst) 0 params

/-! ## tracer.py — flow recorder, payload search, interactive loop -/

/-- The fields of a recorded flow event that `_match_event` and the payload
search read (the snapshots are irrelevant to the claims settled here). -/
structure FlowEvent where
  function : Option String
  line : Option Int
  file : Option String
deriving DecidableEq

/-- `LinearFlowRecorder` state: the append-only journal and the served
cursor (initially `-1`). -/
structure LinearFlow where
  events : List FlowEvent
  lastServedIndex : Int
deriving DecidableEq

/-- `LinearFlowRecorder._match_event`: an empty function name or an absent
file pin skips its check; a recorded line below the requested line rejects
(the request line is always an `int` at both call sites). -/
def match_event (e : FlowEvent) (functionName : String) (line : Int)
    (filePath : Option String) : Bool :=
  if functionName != "" && e.function != some functionName then false
  else if (match filePath with
           | some f => f != "" && e.file != some f
           | none => false) then false
  else
    match e.line with
    | some l => decide (line ≤ l)
    | none => true

/-- `LinearFlowRecorder.find_index`: forward from `after_index + 1`, then
(wrap) the indices before the start.  A cursor beyond the journal length
would raise `IndexError` in the source; the `min` keeps the model total
(that state is unreachable because `mark_served` only stores valid
indices). -/
def find_index (events : List FlowEvent) (functionName : String) (line : Int)
    (afterIndex : Option Int) (filePath : Option String)
    (allowWrap : Bool) : Option Nat :=
  if events.isEmpty then none
  else
    let start : Nat := match afterIndex with
      | none => 0
      | some a => if a + 1 < 0 then 0 else (a + 1).toNat
    let n := events.length
    let order := (List.range n).drop start ++
      (if allowWrap && start > 0 then List.range (min start n) else [])
    order.find? (fun idx =>
      match events.get? idx with
      | some e => match_event e functionName line filePath
      | none => false)

/-- `LinearFlowRecorder.mark_served`: the cursor only ever moves forward. -/
def mark_served (r : LinearFlow) (index : Nat) : LinearFlow :=
  if (index : Int) > r.lastServedIndex then
    { r with lastServedIndex := (index : Int) }
  else r

/-- `LinearFlowRecorder.latest_index`. -/
def latest_index (r : LinearFlow) : Option Nat :=
  if r.events.isEmpty then none else some (r.events.length - 1)

/-- A flow target parsed from a request. -/
structure FlowTarget where
  function : String
  line : Int
  rawLocation : String
  file : Option String
deriving DecidableEq

/-- `FlowTarget.label`. -/
def targetLabel (t : FlowTarget) : String :=
  if t.rawLocation != "" then t.rawLocation
  else t.function ++ ":" ++ toString t.line

/-- The payload fields observable to the claims: matched index, journal
slice, cursor after serving, requested label. -/
structure Payload where
  linearIndex : Nat
  eventsSlice : List FlowEvent
  lastServedIndex : Int
  targetLocation : String
deriving DecidableEq

/-- Everything `send_event` writes to the control stream. -/
inductive Emission where
  | payload (p : Payload)
  | errorEvent (msg : String)
deriving DecidableEq

/-- `build_flow_payload`: the journal up to and including the matched index
(`slice_to_index` returns `[]` out of range, making the payload falsy). -/
def build_flow_payload (r : LinearFlow) (idx : Nat) (t : FlowTarget) :
    Option Payload :=
  let sl := if idx < r.events.length then r.events.take (idx + 1) else []
  if sl.isEmpty then none
  else some ⟨idx, sl, r.lastServedIndex, targetLabel t⟩

/-- The outcome of one `trace_to_target` call: updated recorder state, the
events written to stderr, and the boolean the source returns. -/
structure TraceOutcome where
  flow : LinearFlow
  emissions : List Emission
  ok : Bool
deriving DecidableEq

/-- The tail of `trace_to_target` once an index is selected: advance the
cursor, then build and send the payload. -/
def serve_index (r : LinearFlow) (idx : Nat) (t : FlowTarget) : TraceOutcome :=
  let r2 := mark_served r idx
  match build_flow_payload r2 idx t with
  | none =>
    ⟨r2, [.errorEvent ("Failed to build payload for " ++ targetLabel t)], false⟩
  | some p => ⟨r2, [.payload p], true⟩

/-- The debugger-advancing branch of `trace_to_target`.  While the worker
runs it appends `newEvents` to the journal through the recording callback;
`workerOk` is false when `wait_for_debugger` emitted an error (timeout,
dead worker, or stored worker exception). -/
def advance_debugger (r : LinearFlow) (t : FlowTarget)
    (newEvents : List FlowEvent) (workerOk : Bool) : TraceOutcome :=
  let r2 : LinearFlow := { r with events := r.events ++ newEvents }
  if !workerOk then
    ⟨r2, [.errorEvent ("worker did not reach " ++ targetLabel t)], false⟩
  else
    match find_index r2.events t.function t.line (some r2.lastServedIndex)
        t.file false with
    | some idx => serve_index r2 idx t
    | none =>
      match latest_index r2 with
      | none =>
        ⟨r2, [.errorEvent ("No events recorded for target " ++ targetLabel t)],
         false⟩
      | some li => serve_index r2 li t

/-- `trace_to_target` from tracer.py: forward search after the cursor,
wrap-around replay when the match is at or before the cursor, otherwise
drive the debugger and fall back to the latest event. -/
def trace_to_target (r : LinearFlow) (t : FlowTarget)
    (newEvents : List FlowEvent) (workerOk : Bool) : TraceOutcome :=
  match find_index r.events t.function t.line (some r.lastServedIndex)
      t.file false with
  | some idx => serve_index r idx t
  | none =>
    match find_index r.events t.function t.line none t.file true with
    | some e =>
      if (e : Int) ≤ r.lastServedIndex then serve_index r e t
      else advance_debugger r t newEvents workerOk
    | none => advance_debugger r t newEvents workerOk

/-! ## tracer.py — request parsing and the interactive loop -/

/-- JSON values as produced by `json.loads`. -/
inductive JsonV where
  | null
  | boolV (b : Bool)
  | numV (n : Int)
  | strV (s : String)
  | arrV (elems : List JsonV)
  | objV (fields : List (String × JsonV))

/-- `dict.get` on a parsed JSON object (later duplicate keys win, as in
`json.loads`). -/
def jsonGet (fields : List (String × JsonV)) (k : String) : Option JsonV :=
  (fields.reverse.find? (fun kv => kv.1 == k)).map Prod.snd

/-- Python truthiness of a JSON value. -/
def pyTruthy : JsonV → Bool
  | .null => false
  | .boolV b => b
  | .numV n => n != 0
  | .strV s => s != ""
  | .arrV l => !l.isEmpty
  | .objV f => !f.isEmpty

/-- Rendering used when a non-string truthy value flows into a field the
source stores verbatim (unreachable in the settled claims). -/
def jsonValToStr : JsonV → String
  | .strV s => s
  | .numV n => toString n
  | .boolV b => if b then "True" else "False"
  | .null => "None"
  | .arrV _ => "<arr>"
  | .objV _ => "<obj>"

/-- Python `int(str)`: digits with optional single underscores between
them; the flag tracks whether the previous character was a digit. -/
def pyDigitsAux : List Char → Bool → Option Nat → Option Nat
  | [], lastDigit, acc => if lastDigit then acc else none
  | c :: rest, lastDigit, acc =>
    if c.isDigit then
      pyDigitsAux rest true
        (some ((acc.getD 0) * 10 + (c.toNat - 48)))
    else if c == '_' then
      if lastDigit then pyDigitsAux rest false acc else none
    else none

/-- Python `int(s)` for strings: surrounding whitespace allowed, optional
sign, else `ValueError` (`none`). -/
def pyInt (s : String) : Option Int :=
  match (pyStrip s).toList with
  | '+' :: rest => (pyDigitsAux rest false none).map (fun n => (n : Int))
  | '-' :: rest => (pyDigitsAux rest false none).map (fun n => -(n : Int))
  | l => (pyDigitsAux l false none).map (fun n => (n : Int))

/-- `value.rsplit(":", 1)`: split at the last colon (found by preferring
the deeper recursive split). -/
def splitAtLastColon : List Char → Option (List Char × List Char)
  | [] => none
  | c :: rest =>
    match splitAtLastColon rest with
    | some (a, b) => some (c :: a, b)
    | none => if c == ':' then some ([], rest) else none

/-- `parse_location_spec` from tracer.py. -/
def parse_location_spec (value : String) (defaultFunction : Option String) :
    Except String (String × Int) :=
  if value = "" then .error "location must be non-empty"
  else
    match splitAtLastColon value.toList with
    | some (f, lt) =>
      let func := if f.isEmpty then defaultFunction else some (String.mk f)
      match func with
      | none => .error "function name could not be determined for location"
      | some fn =>
        match pyInt (String.mk lt) with
        | some n => .ok (fn, n)
        | none => .error "invalid line number in location"
    | none =>
      match defaultFunction with
      | none => .error "function name is required when location has no colon"
      | some fn =>
        match pyInt value with
        | some n => .ok (fn, n)
        | none => .error "invalid line number in location"

/-- `ensure_abs_path` from tracer.py (POSIX model: `isabs` is a leading
slash; `abspathFn` is the environment's `os.path.abspath`). -/
def ensure_abs_path (abspathFn : String → String) (repoRoot : String)
    (fileValue : Option String) : Option String :=
  match fileValue with
  | none => none
  | some f =>
    if f = "" then none
    else if pyStartsWith f "/" then some (abspathFn f)
    else some (abspathFn (repoRoot ++ "/" ++ pyLstripSlash f))

/-- The request starts with `{`. -/
def startsBrace (s : String) : Bool :=
  match s.toList with
  | c :: _ => c == '{'
  | [] => false

/-- The request ends with `}`. -/
def endsBrace (s : String) : Bool :=
  match s.toList.getLast? with
  | some c => c == '}'
  | none => false

/-- `parse_flow_target_from_input` from tracer.py.  `jsonParse` is the
environment's `json.loads` (`none` = `JSONDecodeError`); every exception
the source can raise here (decode error, `TypeError` from `isabs` or `in`
on a non-string, missing `line`, bad `int`) is an `Except.error`, which
the interactive loop catches. -/
def parse_flow_target_from_input (jsonParse : String → Option JsonV)
    (abspathFn : String → String) (repoRoot effectiveFnName : String)
    (rawInput : String) : Except String FlowTarget :=
  let stripped := pyStrip rawInput
  if startsBrace stripped && endsBrace stripped then
    match jsonParse stripped with
    | none => .error "failed to decode JSON command"
    | some (.objV fields) =>
      let functionOverride : String :=
        match jsonGet fields "function" with
        | some v => if pyTruthy v then jsonValToStr v else effectiveFnName
        | none => effectiveFnName
      let fileStep : Except String (Option String) :=
        match jsonGet fields "file" with
        | none => .ok none
        | some (.strV f) => .ok (ensure_abs_path abspathFn repoRoot (some f))
        | some v =>
          if pyTruthy v then .error "TypeError: isabs on a non-string"
          else .ok none
      match fileStep with
      | .error e => .error e
      | .ok fileOverride =>
        let locationStep : Except String (Option String) :=
          match jsonGet fields "location" with
          | none => .ok none
          | some (.strV s) => .ok (if s = "" then none else some s)
          | some v =>
            if pyTruthy v then .error "TypeError: non-string location"
            else .ok none
        match locationStep with
        | .error e => .error e
        | .ok (some loc) =>
          match parse_location_spec loc (some functionOverride) with
          | .error e => .error e
          | .ok fl => .ok ⟨fl.1, fl.2, loc, fileOverride⟩
        | .ok none =>
          match jsonGet fields "line" with
          | none => .error "command missing line or location"
          | some .null => .error "command missing line or location"
          | some (.numV n) =>
            .ok ⟨functionOverride, n,
                 functionOverride ++ ":" ++ toString n, fileOverride⟩
          | some (.boolV b) =>
            let n : Int := if b then 1 else 0
            .ok ⟨functionOverride, n,
                 functionOverride ++ ":" ++ toString n, fileOverride⟩
          | some (.strV s) =>
            match pyInt s with
            | some n =>
              .ok ⟨functionOverride, n,
                   functionOverride ++ ":" ++ toString n, fileOverride⟩
            | none => .error "invalid line value"
          | some _ => .error "TypeError: int() on a non-scalar"
    | some _ => .error "AttributeError: command is not an object"
  else
    match pyInt stripped with
    | some n =>
      .ok ⟨effectiveFnName, n, effectiveFnName ++ ":" ++ toString n, none⟩
    | none => .error "invalid integer request"

/-- Whether one loop iteration ends the session. -/
inductive StepOutcome where
  | ended
  | continued
deriving DecidableEq

/-- The observable effect of one interactive-loop iteration. -/
structure StepResult where
  outcome : StepOutcome
  flow : LinearFlow
  emissions : List Emission
deriving DecidableEq

/-- One iteration of the interactive stepping loop of `main` (lines
1351–1376): empty or `"0"` input breaks; a parse failure is caught, logged
and skipped (`continue`); otherwise the target is traced and a failed
trace breaks the loop. -/
def interactive_step (jsonParse : String → Option JsonV)
    (abspathFn : String → String) (repoRoot effectiveFnName : String)
    (newEvents : List FlowEvent) (workerOk : Bool) (flow : LinearFlow)
    (rawInput : String) : StepResult :=
  let userInput := pyStrip rawInput
  if userInput = "" || userInput = "0" then ⟨.ended, flow, []⟩
  else
    match parse_flow_target_from_input jsonParse abspathFn repoRoot
        effectiveFnName userInput with
    | .error _ => ⟨.continued, flow, []⟩
    | .ok target =>
      let tr := trace_to_target flow target newEvents workerOk
      ⟨if tr.ok then .continued else .ended, tr.flow, tr.emissions⟩

/-! ## Concrete instances used by the claims -/

/-- The parsed `ast.arguments` of `def g(x, y: Mapping[str,int] = None, *, z=3):`
(CPython places `x`,`y` in `args.args`, the `None` default in
`args.defaults`, and `z` with its default in the keyword-only fields). -/
def gArgs : PyArguments :=
  { args := [⟨"x", none⟩,
             ⟨"y", some (.subscriptA (.nameA "Mapping")
                          [.nameA "str", .nameA "int"])⟩],
    defaults := [.constE .noneC],
    kwonlyargs := [⟨"z", none⟩],
    kwDefaults := [some (.constE (.intC 3))] }

/-- A module whose body is exactly the definition of `g`. -/
def c1Module : List PyStmt := [.functionDef "g" gArgs [.passS]]

/-- File oracle serving the module above at `c1.py`. -/
def fsC1 : String → FileRes :=
  fun p => if p = "c1.py" then .parsed c1Module else .notFound

/-- Dynamic-fallback oracle that always fails (never consulted on the
settled paths). -/
def dynNone : String → List String → Option (List String) := fun _ _ => none

/-- A rewritten function body containing the qualified self-token from the
`def` line and a genuine recursive call (as produced by
`qualify_calls_in_line` on `def fact(n): return n * fact(n - 1)`). -/
def c6Body : String :=
  "def /a.py::fact(n):\n    return n * /a.py::fact(n - 1)"

/-- Two changed functions where the first calls the second: used to witness
the call-graph root property. -/
def c2Functions : List (String × String) :=
  [("/f.py::a", "def /f.py::a():\n    return /f.py::b()"),
   ("/f.py::b", "def /f.py::b():\n    return 1")]

/-- The hunk of scenario S1: one removed and one added `def` line plus
context lines. -/
def c7Hunk : List String :=
  [" import os", "-def f(a):", "+def f(a: int) -> None:", "     pass"]

/-- A repository tree with a Python file under a directory named `env`. -/
def c8SiTree : FSEntries := .cons (.dir "env" (.cons (.file "evil.py") .nil)) .nil

/-- Parse oracle for the tree above: `env/evil.py` defines `f`. -/
def c8SiOracle : String → Option (List String) :=
  fun p => if p = "env/evil.py" then some ["f"] else none

/-- Working-tree resolution for an untracked directory `pkg` containing
`node_modules/bad.py`. -/
def c8CsaResolve : String → PathResolve :=
  fun p =>
    if p = "pkg" then
      .directory (.cons (.dir "node_modules" (.cons (.file "bad.py") .nil)) .nil)
    else .missing

/-! ## Helper lemmas -/

theorem memb_iff {α : Type} [DecidableEq α] (a : α) (l : List α) :
    memb a l = true ↔ a ∈ l := by
  simp [memb, List.any_eq_true]

theorem mem_listFlat {α : Type} (a : α) (L : List (List α)) :
    a ∈ listFlat L ↔ ∃ l ∈ L, a ∈ l := by
  induction L with
  | nil => simp [listFlat]
  | cons l ls ih => simp [listFlat, ih]

theorem bool_eq_of_iff {a b : Bool} (h : a = true ↔ b = true) : a = b := by
  cases a <;> cases b <;> simp_all

theorem filter_not_length {α : Type} (l : List α) (q : α → Bool) :
    (l.filter (fun x => !(q x))).length + (l.filter q).length = l.length := by
  induction l with
  | nil => simp
  | cons x xs ih =>
    by_cases hx : q x = true <;> simp [List.filter, hx] <;> omega

theorem get?_mem_enumFrom {α : Type} (l : List α) :
    ∀ (n i : Nat) (a : α), l.get? i = some a → (n + i, a) ∈ List.enumFrom n l := by
  induction l with
  | nil => intro n i a h; simp at h
  | cons x xs ih =>
    intro n i a h
    cases i with
    | zero =>
      simp only [List.get?] at h
      injection h with h
      subst h
      simp [List.enumFrom]
    | succ j =>
      simp only [List.get?] at h
      have := ih (n + 1) j a h
      simp only [List.enumFrom, List.mem_cons]
      right
      convert this using 2
      omega

theorem get?_mem_enum {α : Type} (l : List α) (i : Nat) (a : α)
    (h : l.get? i = some a) : (i, a) ∈ l.enum := by
  have := get?_mem_enumFrom l 0 i a h
  simpa [List.enum] using this

theorem mem_enumFrom_get? {α : Type} (l : List α) :
    ∀ (n i : Nat) (a : α), (i, a) ∈ List.enumFrom n l →
      n ≤ i ∧ l.get? (i - n) = some a := by
  induction l with
  | nil => intro n i a h; simp [List.enumFrom] at h
  | cons x xs ih =>
    intro n i a h
    simp only [List.enumFrom, List.mem_cons] at h
    rcases h with h | h
    · injection h with h1 h2
      subst h1; subst h2
      simp
    · obtain ⟨hle, hget⟩ := ih (n + 1) i a h
      refine ⟨by omega, ?_⟩
      have : i - n = (i - (n + 1)) + 1 := by omega
      rw [this]
      simpa using hget

theorem mem_enum_get? {α : Type} (l : List α) (i : Nat) (a : α)
    (h : (i, a) ∈ l.enum) : l.get? i = some a := by
  have h2 := (mem_enumFrom_get? l 0 i a (by simpa [List.enum] using h)).2
  simpa using h2

theorem nodup_get?_eq {α : Type} (l : List α) (hl : l.Nodup) :
    ∀ i j a, l.get? i = some a → l.get? j = some a → i = j := by
  induction l with
  | nil => intro i j a h; simp at h
  | cons x xs ih =>
    intro i j a hi hj
    have hx : x ∉ xs := (List.nodup_cons.mp hl).1
    have hxs : xs.Nodup := (List.nodup_cons.mp hl).2
    cases i with
    | zero =>
      simp only [List.get?] at hi
      injection hi with hi
      subst hi
      cases j with
      | zero => rfl
      | succ j2 =>
        simp only [List.get?] at hj
        exact absurd (List.get?_mem hj) hx
    | succ i2 =>
      simp only [List.get?] at hi
      cases j with
      | zero =>
        simp only [List.get?] at hj
        injection hj with hj
        subst hj
        exact absurd (List.get?_mem hi) hx
      | succ j2 =>
        simp only [List.get?] at hj
        exact congrArg Nat.succ (ih hxs i2 j2 a hi hj)

theorem getD_get? {α : Type} (l : List α) :
    ∀ (n : Nat) (d : α), n < l.length → l.get? n = some (l.getD n d) := by
  induction l with
  | nil => intro n d h; simp at h
  | cons x xs ih =>
    intro n d h
    cases n with
    | zero => rfl
    | succ m =>
      simp only [List.get?, List.getD]
      have := ih m d (by simpa using Nat.lt_of_succ_lt_succ h)
      simpa [List.getD] using this

/-! ## C1 — signature of `def g(x, y: Mapping[str,int] = None, *, z=3):` -/

/-- C1 counterexample: at the claim's own input, signature mode returns
params `["x","y"]` whichever `unparse_annotation` branch is live — never
the claimed `["x","y","z"]` (the extraction loop reads only
`target_func.args.args`, which excludes keyword-only parameters). -/
theorem c1_counterexample :
    sigParams (get_function_signature true fsC1 dynNone "/c1.py::g") ≠
      ["x", "y", "z"] ∧
    sigParams (get_function_signature false fsC1 dynNone "/c1.py::g") ≠
      ["x", "y", "z"] := by decide

/-- C1 amended: for `def g(x, y: Mapping[str,int] = None, *, z=3):`,
signature mode returns params `["x","y"]` (keyword-only `z` is omitted),
required `[true,false]`; with `ast.unparse` available the type of `y` is
`"Mapping[str, int]"` and its default renders as the string `"None"`,
while the pre-3.9 manual fallback yields `"Mapping"` and an absent
default. -/
theorem c1_amended_signature :
    get_function_signature true fsC1 dynNone "/c1.py::g" =
      .ok ["x", "y"] [none, some "Mapping[str, int]"]
        [none, some (.str "None")] [true, false] ∧
    get_function_signature false fsC1 dynNone "/c1.py::g" =
      .ok ["x", "y"] [none, some "Mapping"] [none, none] [true, false] := by
  decide

/-! ## C2 — call-graph roots have in-degree zero -/

theorem build_call_graph_keys (functions : List (String × String)) :
    (build_call_graph functions).map Prod.fst = functions.map Prod.fst := by
  simp [build_call_graph]

theorem build_call_graph_no_self (functions : List (String × String))
    (g : String) (calls : List String) (f : String)
    (hmem : (g, calls) ∈ build_call_graph functions) (hf : f ∈ calls) :
    f ≠ g := by
  simp only [build_call_graph, List.mem_map] at hmem
  obtain ⟨fb, _, heq⟩ := hmem
  have hg : g = fb.1 := (Prod.mk.injEq _ _ _ _ ▸ heq.symm).1
  have hcalls : calls =
      (extract_calls_from_body fb.2 fb.1).filter
        (fun c => memb c (functions.map Prod.fst)) :=
    (Prod.mk.injEq _ _ _ _ ▸ heq.symm).2
  subst hg
  rw [hcalls] at hf
  have h2 := (List.mem_filter.mp hf).1
  simp only [extract_calls_from_body, List.mem_filter] at h2
  have h3 := h2.2
  simpa using h3

theorem mem_find_parents (graph : List (String × List String)) (f : String) :
    f ∈ find_parents graph ↔
      f ∈ graph.map Prod.fst ∧
        ¬∃ g calls, (g, calls) ∈ graph ∧ f ∈ calls := by
  simp only [find_parents, List.mem_filter, Bool.not_eq_true']
  constructor
  · rintro ⟨h1, h2⟩
    refine ⟨h1, ?_⟩
    rintro ⟨g, calls, hgc, hfc⟩
    have : f ∈ listFlat (graph.map Prod.snd) := by
      rw [mem_listFlat]
      exact ⟨calls, List.mem_map_of_mem Prod.snd hgc, hfc⟩
    rw [← memb_iff f (listFlat (graph.map Prod.snd))] at this
    rw [h2] at this
    cases this
  · rintro ⟨h1, h2⟩
    refine ⟨h1, ?_⟩
    rw [Bool.eq_false_iff]
    intro hmemb
    have := (memb_iff _ _).mp hmemb
    rw [mem_listFlat] at this
    obtain ⟨l, hl, hfl⟩ := this
    obtain ⟨pair, hpair, hsnd⟩ := List.mem_map.mp hl
    exact h2 ⟨pair.1, pair.2, by simpa using hpair, hsnd ▸ hfl⟩

/-- C2: for every function `f` in the graph CSA builds, either `f` is in
the emitted root list (`find_parents`) or some other function `g` has an
edge `g → f`; and the root list is exactly the set of nodes with
in-degree zero. -/
theorem c2_roots_in_degree_zero (functions : List (String × String))
    (f : String) (hf : f ∈ functions.map Prod.fst) :
    (f ∈ find_parents (build_call_graph functions) ∨
      ∃ g calls, (g, calls) ∈ build_call_graph functions ∧ g ≠ f ∧ f ∈ calls) ∧
    (f ∈ find_parents (build_call_graph functions) ↔
      f ∈ functions.map Prod.fst ∧
        ∀ g calls, (g, calls) ∈ build_call_graph functions → f ∉ calls) := by
  have hkeys := build_call_graph_keys functions
  have hiff := mem_find_parents (build_call_graph functions) f
  constructor
  · by_cases hp : f ∈ find_parents (build_call_graph functions)
    · exact Or.inl hp
    · right
      rw [hiff] at hp
      push_neg at hp
      obtain ⟨g, calls, hgc, hfc⟩ := hp (by rw [hkeys]; exact hf)
      exact ⟨g, calls, hgc,
        (build_call_graph_no_self functions g calls f hgc hfc).symm, hfc⟩
  · rw [hiff, hkeys]
    constructor
    · rintro ⟨h1, h2⟩
      exact ⟨h1, fun g calls hgc hfc => h2 ⟨g, calls, hgc, hfc⟩⟩
    · rintro ⟨h1, h2⟩
      exact ⟨h1, fun ⟨g, calls, hgc, hfc⟩ => h2 g calls hgc hfc⟩

/-- C2 witness: in the two-function change set, `b` is called by `a`, so
`b` satisfies the disjunction through its incoming edge. -/
theorem c2_roots_witness :
    "/f.py::b" ∈ find_parents (build_call_graph c2Functions) ∨
      ∃ g calls, (g, calls) ∈ build_call_graph c2Functions ∧
        g ≠ "/f.py::b" ∧ "/f.py::b" ∈ calls :=
  (c2_roots_in_degree_zero c2Functions "/f.py::b" (by decide)).1

/-! ## C3 — argument filtering before invocation -/

theorem memb_map_fst_filter (kwargs : List (String × JVal)) (params : List String)
    (p : String) (hp : p ∈ params) :
    memb p ((kwargs.filter (fun kv => memb kv.1 params)).map Prod.fst) =
      memb p (kwargs.map Prod.fst) := by
  apply bool_eq_of_iff
  rw [memb_iff, memb_iff]
  constructor
  · intro h
    obtain ⟨kv, hkv, hfst⟩ := List.mem_map.mp h
    exact List.mem_map.mpr ⟨kv, (List.mem_filter.mp hkv).1, hfst⟩
  · intro h
    obtain ⟨kv, hkv, hfst⟩ := List.mem_map.mp h
    refine List.mem_map.mpr ⟨kv, List.mem_filter.mpr ⟨hkv, ?_⟩, hfst⟩
    rw [memb_iff]
    exact hfst ▸ hp

theorem boundTwiceAux_false (argsLen : Nat) (kwKeys : List String)
    (ps : List String) :
    ∀ i, (∀ j p, ps.get? j = some p → memb p kwKeys = true → argsLen ≤ i + j) →
      boundTwiceAux argsLen kwKeys i ps = false := by
  induction ps with
  | nil => intro i _; rfl
  | cons p rest ih =>
    intro i h
    simp only [boundTwiceAux, Bool.or_eq_false_iff, Bool.and_eq_false_iff]
    constructor
    · by_cases hm : memb p kwKeys = true
      · left
        have := h 0 p rfl hm
        simp only [decide_eq_false_iff_not]
        omega
      · right
        simpa using hm
    · exact ih (i + 1) (fun j q hq hm => by
        have := h (j + 1) q (by simpa using hq) hm
        omega)

/-- C3 counterexample: with params `["x","y"]`, positional `[1, 2]` and
keyword `x=5`, the filtering of `main` keeps `args=[1]`, `kwargs={x:5}` —
and the call then binds `x` both positionally and by keyword, so the
filtering does not ensure that no parameter is bound twice. -/
theorem c3_counterexample :
    main_argument_filtering
        (.ok ["x", "y"] [none, none] [none, none] [true, true])
        [.int 1, .int 2] [("x", .int 5)] =
      ([.int 1], [("x", .int 5)]) ∧
    param_bound_twice ["x", "y"] [.int 1] [("x", .int 5)] = true := by decide

/-- C3 amended: on a successful signature, `main` drops every keyword
argument whose name is not in `params` and truncates the positional list
to `len(params) − |kwargs ∩ params|` (never lengthening it); no parameter
is bound twice provided every keyword-supplied parameter sits at an index
at or beyond the truncated positional count — a keyword naming one of the
first positions is still double-bound.  A successful extract-args result
applies exactly this same filtering. -/
theorem c3_amended_filtering (params : List String) (args : List JVal)
    (kwargs : List (String × JVal)) :
    ((filter_args_for_signature params args kwargs).2 =
      kwargs.filter (fun kv => memb kv.1 params)) ∧
    ((filter_args_for_signature params args kwargs).1.length =
      min args.length (params.length -
        (params.filter (fun p => memb p (kwargs.map Prod.fst))).length)) ∧
    ((∀ i p, params.get? i = some p →
        memb p ((filter_args_for_signature params args kwargs).2.map Prod.fst) =
          true →
        (filter_args_for_signature params args kwargs).1.length ≤ i) →
      param_bound_twice params (filter_args_for_signature params args kwargs).1
        (filter_args_for_signature params args kwargs).2 = false) ∧
    (∀ (sig : SigResult) (posEvals : List (Option JVal))
        (kwEvals : List (Option String × Option JVal))
        (a : List JVal) (k : List (String × JVal)),
      extract_core sig posEvals kwEvals = .ok (a, k) →
      (a, k) = filter_args_for_signature (sigParams sig)
        (evalPositionalArgs (sigParams sig)
          (params_with_defaults (sigParams sig) (sigDefaults sig)) 0 posEvals).1
        (evalKeywordArgs (sigParams sig)
          (params_with_defaults (sigParams sig) (sigDefaults sig)) kwEvals).1) ∧
    (∀ (pt : List (Option String)) (pd : List (Option JVal)) (pr : List Bool),
      main_argument_filtering (.ok params pt pd pr) args kwargs =
        filter_args_for_signature params args kwargs) := by
  refine ⟨rfl, ?_, ?_, ?_, fun _ _ _ => rfl⟩
  · unfold filter_args_for_signature
    dsimp only
    have hswap :
        params.filter (fun p =>
          !(memb p ((kwargs.filter (fun kv => memb kv.1 params)).map Prod.fst))) =
        params.filter (fun p => !(memb p (kwargs.map Prod.fst))) := by
      apply List.filter_congr
      intro p hp
      rw [memb_map_fst_filter kwargs params p hp]
    rw [hswap]
    have hlen := filter_not_length params (fun p => memb p (kwargs.map Prod.fst))
    split
    · rename_i hgt
      rw [List.length_take]
      omega
    · rename_i hle
      omega
  · intro h
    unfold param_bound_twice
    apply boundTwiceAux_false
    intro j p hget hmemb
    have := h j p hget hmemb
    omega
  · intro sig posEvals kwEvals a k hok
    unfold extract_core at hok
    dsimp only at hok
    by_cases hne : (sigParams sig).isEmpty = true
    · rw [hne] at hok
      simp at hok
    · rw [Bool.not_eq_true] at hne
      rw [hne] at hok
      simp only [Bool.not_false, if_true] at hok
      split at hok
      · cases hok
      · injection hok with hok
        rw [Prod.mk.injEq] at hok
        exact Prod.ext hok.1.symm hok.2.symm

/-- C3 witness: with params `["a","b"]`, one positional argument and
keyword `b=2`, the only keyword-supplied parameter is at index 1, at the
truncated positional count, so no parameter is bound twice. -/
theorem c3_amended_witness :
    param_bound_twice ["a", "b"]
      (filter_args_for_signature ["a", "b"] [.int 1] [("b", .int 2)]).1
      (filter_args_for_signature ["a", "b"] [.int 1] [("b", .int 2)]).2 =
      false :=
  (c3_amended_filtering ["a", "b"] [.int 1] [("b", .int 2)]).2.2.1 (by
    intro i p hget hmemb
    cases i with
    | zero =>
      injection hget with h
      subst h
      exact absurd hmemb (by decide)
    | succ j =>
      cases j with
      | zero => decide
      | succ k => simp [List.get?] at hget)

/-! ## C4 — extract-args errors on unbound required parameters -/

theorem recheckMissing_sub (pwd fkKeys : List String) (faLen : Nat) :
    ∀ (l : List (Nat × String)) (ms : List String) (x : String), x ∈ ms →
      x ∈ recheckMissing pwd fkKeys faLen l ms := by
  intro l
  induction l with
  | nil => intro ms x hx; exact hx
  | cons ip rest ih =>
    intro ms x hx
    simp only [recheckMissing]
    apply ih
    split
    · exact List.mem_append_left _ hx
    · exact hx

theorem recheckMissing_mem (pwd fkKeys : List String) (faLen : Nat) :
    ∀ (l : List (Nat × String)) (ms : List String) (i : Nat) (p : String),
      (i, p) ∈ l → memb p pwd = false → memb p fkKeys = false → faLen ≤ i →
      p ∈ recheckMissing pwd fkKeys faLen l ms := by
  intro l
  induction l with
  | nil => intro ms i p h; simp at h
  | cons ip rest ih =>
    intro ms i p hmem hpwd hfk hlen
    simp only [List.mem_cons] at hmem
    rcases hmem with heq | hmem
    · have hip : ip.1 = i ∧ ip.2 = p := by
        constructor
        · exact congrArg Prod.fst heq.symm
        · exact congrArg Prod.snd heq.symm
      simp only [recheckMissing]
      by_cases hms : memb p ms = true
      · apply recheckMissing_sub
        split
        · exact List.mem_append_left _ ((memb_iff _ _).mp hms)
        · exact (memb_iff _ _).mp hms
      · apply recheckMissing_sub
        have hcond : (!(memb ip.2 pwd) && !(memb ip.2 fkKeys) &&
            decide (faLen ≤ ip.1) && !(memb ip.2 ms)) = true := by
          rw [hip.1, hip.2]
          simp [hpwd, hfk, hlen, hms]
        rw [if_pos hcond]
        rw [hip.2]
        exact List.mem_append_right _ (List.mem_singleton.mpr rfl)
    · simp only [recheckMissing]
      exact ih _ i p hmem hpwd hfk hlen

theorem recheckMissing_nil (pwd fkKeys : List String) (faLen : Nat) :
    ∀ (l : List (Nat × String)) (ms : List String),
      recheckMissing pwd fkKeys faLen l ms = [] →
      ms = [] ∧ ∀ i p, (i, p) ∈ l →
        ¬(memb p pwd = false ∧ memb p fkKeys = false ∧ faLen ≤ i) := by
  intro l
  induction l with
  | nil =>
    intro ms h
    exact ⟨h, by simp⟩
  | cons ip rest ih =>
    intro ms h
    simp only [recheckMissing] at h
    obtain ⟨hms', hrest⟩ := ih _ h
    have hcondfalse : ¬((!(memb ip.2 pwd) && !(memb ip.2 fkKeys) &&
        decide (faLen ≤ ip.1) && !(memb ip.2 ms)) = true) := by
      intro hcond
      rw [if_pos hcond] at hms'
      simp at hms'
    have hmseq : ms = [] := by
      by_cases hc : (!(memb ip.2 pwd) && !(memb ip.2 fkKeys) &&
          decide (faLen ≤ ip.1) && !(memb ip.2 ms)) = true
      · exact absurd hc hcondfalse
      · rw [if_neg hc] at hms'
        exact hms'
    refine ⟨hmseq, ?_⟩
    intro i p hmem
    simp only [List.mem_cons] at hmem
    rcases hmem with heq | hmem
    · rintro ⟨hpwd, hfk, hlen⟩
      apply hcondfalse
      have h1 : ip.1 = i := congrArg Prod.fst heq.symm
      have h2 : ip.2 = p := congrArg Prod.snd heq.symm
      rw [h1, h2, hmseq]
      have hnil : memb p ([] : List String) = false := rfl
      simp [hpwd, hfk, hlen, hnil]
    · exact hrest i p hmem

theorem pwd_not_mem (accepted : List String) (defaults : List (Option JVal))
    (hnd : accepted.Nodup) (i : Nat) (p : String)
    (hgp : accepted.get? i = some p) (hgd : defaults.get? i = some none) :
    memb p (params_with_defaults accepted defaults) = false := by
  rw [Bool.eq_false_iff]
  intro hmemb
  have hp := (memb_iff _ _).mp hmemb
  unfold params_with_defaults at hp
  split at hp
  · simp at hp
  · obtain ⟨idv, hidv, hsome⟩ := List.mem_filterMap.mp hp
    split at hsome
    · rename_i hcond
      injection hsome with hsome
      have hlt : idv.1 < accepted.length := by
        have := hcond
        simp only [Bool.and_eq_true, decide_eq_true_eq] at this
        exact this.1
      have hisSome : idv.2.isSome = true := by
        have := hcond
        simp only [Bool.and_eq_true, decide_eq_true_eq] at this
        exact this.2
      have hgj : accepted.get? idv.1 = some p := by
        have := getD_get? accepted idv.1 "" hlt
        rw [hsome] at this
        exact this
      have hij : i = idv.1 := nodup_get?_eq accepted hnd i idv.1 p hgp hgj
      have hdj : defaults.get? idv.1 = some idv.2 := by
        have h2 : ((idv.1, idv.2) : Nat × Option JVal) ∈ defaults.enum := by
          simpa using hidv
        exact mem_enum_get? defaults idv.1 idv.2 h2
      rw [← hij, hgd] at hdj
      injection hdj with hdj
      rw [← hdj] at hisSome
      simp at hisSome
    · cases hsome

/-- C4: after evaluation and signature filtering, a successful static-mode
extract-args result binds every parameter without a rendered default
either by keyword or positionally (first conjunct), and whenever such a
parameter would be left unbound by the filtered result the function
returns an error object instead (second conjunct). -/
theorem c4_required_params (sig : SigResult) (posEvals : List (Option JVal))
    (kwEvals : List (Option String × Option JVal))
    (hnd : (sigParams sig).Nodup) :
    (∀ (a : List JVal) (k : List (String × JVal)),
      extract_core sig posEvals kwEvals = .ok (a, k) →
      ∀ (i : Nat) (p : String), (sigParams sig).get? i = some p →
        (sigDefaults sig).get? i = some none →
        (memb p (k.map Prod.fst) = true ∨ i < a.length)) ∧
    (∀ (i : Nat) (p : String), (sigParams sig).get? i = some p →
      (sigDefaults sig).get? i = some none →
      memb p ((filter_args_for_signature (sigParams sig)
          (evalPositionalArgs (sigParams sig)
            (params_with_defaults (sigParams sig) (sigDefaults sig)) 0 posEvals).1
          (evalKeywordArgs (sigParams sig)
            (params_with_defaults (sigParams sig) (sigDefaults sig)) kwEvals).1).2.map
          Prod.fst) = false →
      (filter_args_for_signature (sigParams sig)
          (evalPositionalArgs (sigParams sig)
            (params_with_defaults (sigParams sig) (sigDefaults sig)) 0 posEvals).1
          (evalKeywordArgs (sigParams sig)
            (params_with_defaults (sigParams sig) (sigDefaults sig)) kwEvals).1).1.length ≤ i →
      ∃ e, extract_core sig posEvals kwEvals = .error e) := by
  constructor
  · intro a k hok i p hgp hgd
    have hpwd := pwd_not_mem (sigParams sig) (sigDefaults sig) hnd i p hgp hgd
    have hne : (sigParams sig).isEmpty = false := by
      cases hsp : sigParams sig with
      | nil => rw [hsp] at hgp; simp at hgp
      | cons x xs => rfl
    unfold extract_core at hok
    dsimp only at hok
    rw [hne] at hok
    simp only [Bool.not_false, if_true] at hok
    split at hok
    · cases hok
    · rename_i hmf
      have hnil := List.isEmpty_iff.mp (show _ = true by simpa using hmf)
      obtain ⟨-, hall⟩ := recheckMissing_nil _ _ _ _ _ hnil
      have hip := hall i p (get?_mem_enum (sigParams sig) i p hgp)
      injection hok with hok
      rw [Prod.mk.injEq] at hok
      obtain ⟨ha, hk⟩ := hok
      by_cases hfk : memb p ((filter_args_for_signature (sigParams sig)
          (evalPositionalArgs (sigParams sig)
            (params_with_defaults (sigParams sig) (sigDefaults sig)) 0 posEvals).1
          (evalKeywordArgs (sigParams sig)
            (params_with_defaults (sigParams sig) (sigDefaults sig)) kwEvals).1).2.map
          Prod.fst) = true
      · left
        rw [← hk]
        exact hfk
      · right
        rw [← ha]
        rw [Bool.not_eq_true] at hfk
        have : ¬((filter_args_for_signature (sigParams sig)
            (evalPositionalArgs (sigParams sig)
              (params_with_defaults (sigParams sig) (sigDefaults sig)) 0 posEvals).1
            (evalKeywordArgs (sigParams sig)
              (params_with_defaults (sigParams sig) (sigDefaults sig)) kwEvals).1).1.length ≤ i) := by
          intro hle
          exact hip ⟨hpwd, hfk, hle⟩
        omega
  · intro i p hgp hgd hfk hlen
    have hpwd := pwd_not_mem (sigParams sig) (sigDefaults sig) hnd i p hgp hgd
    have hne : (sigParams sig).isEmpty = false := by
      cases hsp : sigParams sig with
      | nil => rw [hsp] at hgp; simp at hgp
      | cons x xs => rfl
    unfold extract_core
    dsimp only
    rw [hne]
    simp only [Bool.not_false, if_true]
    have hp_in := recheckMissing_mem
      (params_with_defaults (sigParams sig) (sigDefaults sig)) _ _
      (sigParams sig).enum
      ((evalPositionalArgs (sigParams sig)
        (params_with_defaults (sigParams sig) (sigDefaults sig)) 0 posEvals).2 ++
       (evalKeywordArgs (sigParams sig)
        (params_with_defaults (sigParams sig) (sigDefaults sig)) kwEvals).2)
      i p (get?_mem_enum (sigParams sig) i p hgp)
      hpwd hfk hlen
    have hnonempty : (recheckMissing
        (params_with_defaults (sigParams sig) (sigDefaults sig))
        ((filter_args_for_signature (sigParams sig)
          (evalPositionalArgs (sigParams sig)
            (params_with_defaults (sigParams sig) (sigDefaults sig)) 0 posEvals).1
          (evalKeywordArgs (sigParams sig)
            (params_with_defaults (sigParams sig) (sigDefaults sig)) kwEvals).1).2.map
          Prod.fst)
        (filter_args_for_signature (sigParams sig)
          (evalPositionalArgs (sigParams sig)
            (params_with_defaults (sigParams sig) (sigDefaults sig)) 0 posEvals).1
          (evalKeywordArgs (sigParams sig)
            (params_with_defaults (sigParams sig) (sigDefaults sig)) kwEvals).1).1.length
        (sigParams sig).enum
        ((evalPositionalArgs (sigParams sig)
          (params_with_defaults (sigParams sig) (sigDefaults sig)) 0 posEvals).2 ++
         (evalKeywordArgs (sigParams sig)
          (params_with_defaults (sigParams sig) (sigDefaults sig)) kwEvals).2)).isEmpty
        = false := by
      rw [List.isEmpty_eq_false_iff_exists_mem]
      exact ⟨p, hp_in⟩
    rw [hnonempty]
    exact ⟨_, rfl⟩

/-- C4 witness: for a two-parameter callee whose second parameter has a
default, one successfully evaluated positional argument binds the required
first parameter positionally. -/
theorem c4_required_params_witness :
    memb "a" (([] : List (String × JVal)).map Prod.fst) = true ∨
      0 < ([JVal.int 7] : List JVal).length :=
  (c4_required_params
      (.ok ["a", "b"] [none, none] [none, some (.str "1")] [true, false])
      [some (.int 7)] [] (by decide)).1
    [.int 7] [] rfl 0 "a" rfl rfl

/-! ## C5 — the served cursor never moves backward -/

theorem mark_served_mono (r : LinearFlow) (idx : Nat) :
    r.lastServedIndex ≤ (mark_served r idx).lastServedIndex := by
  unfold mark_served
  split
  · rename_i h
    simp only
    omega
  · exact le_refl _

theorem serve_index_mono (r : LinearFlow) (idx : Nat) (t : FlowTarget) :
    r.lastServedIndex ≤ (serve_index r idx t).flow.lastServedIndex := by
  unfold serve_index
  dsimp only
  split
  · exact mark_served_mono r idx
  · exact mark_served_mono r idx

theorem advance_debugger_mono (r : LinearFlow) (t : FlowTarget)
    (newEvents : List FlowEvent) (workerOk : Bool) :
    r.lastServedIndex ≤
      (advance_debugger r t newEvents workerOk).flow.lastServedIndex := by
  unfold advance_debugger
  dsimp only
  split
  · exact le_refl _
  · split
    · exact serve_index_mono _ _ _
    · split
      · exact le_refl _
      · exact serve_index_mono _ _ _

/-- C5: across any `trace_to_target` call — a fresh stop, a wrap-around
replay of a location earlier in the journal, or any error path — the
Flow's `last_served_index` never decreases. -/
theorem c5_cursor_monotone (r : LinearFlow) (t : FlowTarget)
    (newEvents : List FlowEvent) (workerOk : Bool) :
    r.lastServedIndex ≤
      (trace_to_target r t newEvents workerOk).flow.lastServedIndex := by
  unfold trace_to_target
  split
  · exact serve_index_mono _ _ _
  · split
    · split
      · exact serve_index_mono _ _ _
      · exact advance_debugger_mono _ _ _ _
    · exact advance_debugger_mono _ _ _ _

/-! ## C6 — recursive self-edges are dropped by the call-graph builder -/

/-- C6: the rewritten body of `fact` contains two qualified self tokens —
the one from its own `def` line and a genuine recursive call — yet
`extract_calls_from_body` removes both (it filters every token equal to
the function's own id, not just the `def`-line token), so the graph has no
self-edge and `fact` is even reported as a root. -/
theorem c6_self_edge_dropped :
    regexFindCalls c6Body.toList = ["/a.py::fact", "/a.py::fact"] ∧
    extract_calls_from_body c6Body "/a.py::fact" = [] ∧
    build_call_graph [("/a.py::fact", c6Body)] = [("/a.py::fact", [])] ∧
    find_parents (build_call_graph [("/a.py::fact", c6Body)]) =
      ["/a.py::fact"] := by decide

/-! ## C7 — a trivial signature-only hunk is cosmetic -/

/-- C7: a hunk whose only change replaces `def f(a):` by
`def f(a: int) -> None:` is classified unimportant for every similarity
oracle, the file carrying only this hunk is dropped by the diff filter,
and consequently no changed function is reported. -/
theorem c7_trivial_def_hunk_cosmetic (ratio : String → String → Rat)
    (hunkLines : List String) (filePath : String)
    (hadd : hunkLines.filter isAddedLine = ["+def f(a: int) -> None:"])
    (hrem : hunkLines.filter isRemovedLine = ["-def f(a):"]) :
    is_important_hunk ratio hunkLines = false ∧
    filterImportantFiles ratio [⟨filePath, [hunkLines]⟩] = [] ∧
    find_changed_functions (filterImportantFiles ratio
      [⟨filePath, [hunkLines]⟩]) = [] := by
  have h1 : is_important_hunk ratio hunkLines = false := by
    unfold is_important_hunk
    rw [hadd, hrem]
    rfl
  refine ⟨h1, ?_, ?_⟩
  · simp [filterImportantFiles, h1]
  · simp [filterImportantFiles, h1, find_changed_functions]

/-- C7 witness: the scenario-S1 hunk with surrounding context lines. -/
theorem c7_trivial_def_hunk_witness :
    is_important_hunk (fun _ _ => 0) c7Hunk = false ∧
    filterImportantFiles (fun _ _ => 0) [⟨"a.py", [c7Hunk]⟩] = [] ∧
    find_changed_functions (filterImportantFiles (fun _ _ => 0)
      [⟨"a.py", [c7Hunk]⟩]) = [] :=
  c7_trivial_def_hunk_cosmetic (fun _ _ => 0) c7Hunk "a.py"
    (by decide) (by decide)

/-! ## C8 — repository-walk exclusions -/

/-- C8 counterexample: the SI index walk returns a function defined in a
file under a directory named `env`, and the CSA untracked-file collection
returns a file under `node_modules` — both contributing to outputs the
claim says they cannot reach. -/
theorem c8_counterexample :
    build_repo_index c8SiOracle "/repo" c8SiTree = [("f", ["env/evil.py"])] ∧
    "pkg/node_modules/bad.py" ∈
      extract_new_python_files true ["?? pkg"] c8CsaResolve := by decide

mutual
theorem cslWalkEntry_clean (e : FSEntry) (relDir : List String)
    (hrel : ∀ d ∈ relDir, memb d excludedDirs = false) :
    ∀ p ∈ cslWalkEntry relDir e, ∀ d ∈ p.dropLast,
      memb d excludedDirs = false := by
  cases e with
  | file n =>
    intro p hp
    simp only [cslWalkEntry, List.mem_singleton] at hp
    subst hp
    simpa [List.dropLast_concat] using hrel
  | dir n es =>
    intro p hp
    simp only [cslWalkEntry] at hp
    split at hp
    · simp at hp
    · rename_i hmem
      refine cslWalkEntries_clean es (relDir ++ [n]) ?_ p hp
      intro d hd
      rcases List.mem_append.mp hd with hd | hd
      · exact hrel d hd
      · simp only [List.mem_singleton] at hd
        subst hd
        simpa using hmem

theorem cslWalkEntries_clean (l : FSEntries) (relDir : List String)
    (hrel : ∀ d ∈ relDir, memb d excludedDirs = false) :
    ∀ p ∈ cslWalkEntries relDir l, ∀ d ∈ p.dropLast,
      memb d excludedDirs = false := by
  cases l with
  | nil => simp [cslWalkEntries]
  | cons e rest =>
    intro p hp
    rcases List.mem_append.mp (by simpa [cslWalkEntries] using hp) with hp2 | hp2
    · exact cslWalkEntry_clean e relDir hrel p hp2
    · exact cslWalkEntries_clean rest relDir hrel p hp2
end

/-- C8 amended: only the CSL call-site scan honours the six-name exclusion
set — no file it analyses lies under an excluded directory (first
conjunct) — while the SI name→files index (which prunes only `.git` and
the `venv` path substrings) does index a file under `env`, and the CSA
untracked-file collection (which prunes nothing) does collect a file
under `node_modules`. -/
theorem c8_amended_exclusions :
    (∀ (rootEntries : FSEntries) (targetRel : List String) (p : List String),
       p ∈ csl_candidate_files rootEntries targetRel →
       ∀ d ∈ p.dropLast, memb d excludedDirs = false) ∧
    build_repo_index c8SiOracle "/repo" c8SiTree = [("f", ["env/evil.py"])] ∧
    "pkg/node_modules/bad.py" ∈
      extract_new_python_files true ["?? pkg"] c8CsaResolve := by
  refine ⟨?_, by decide, by decide⟩
  intro rootEntries targetRel p hp
  have hp2 : p ∈ cslWalkEntries [] rootEntries := by
    have h : p ∈ cslWalkEntries [] rootEntries ∧
        pyEndsWith (p.getLast?.getD "") ".py" = true ∧ ¬p = targetRel := by
      simpa [csl_candidate_files] using hp
    exact h.1
  exact cslWalkEntries_clean rootEntries [] (by simp) p hp2

/-- C8 witness: a file under an ordinary `src` directory survives the CSL
scan, and its directory is not excluded. -/
theorem c8_amended_witness :
    memb "src" excludedDirs = false :=
  c8_amended_exclusions.1
    (.cons (.dir "src" (.cons (.file "a.py") .nil)) .nil) ["b.py"]
    ["src", "a.py"] (by decide) "src" (by decide)

/-! ## C9 — top-level sentinel entries -/

/-- C9: for any entry whose function path is the single sentinel
`<top-level>` or `<module>` (case-insensitively, after stripping
whitespace), signature mode returns the empty record — for every file
oracle and dynamic fallback, so the target file is never read and no
error is ever produced. -/
theorem c9_sentinel_signature (hasUnparse : Bool) (fs : String → FileRes)
    (dyn : String → List String → Option (List String)) (entry p s : String)
    (hc : containsSub entry.toList (String.toList "::") = true)
    (hsplit : splitDC entry = [p, s])
    (hsent : is_top_level_entry_name s = true) :
    get_function_signature hasUnparse fs dyn entry = .ok [] [] [] [] := by
  unfold get_function_signature
  rw [hc, hsplit]
  simp [hsent]

/-- C9 witness: the sentinel is honoured with surrounding whitespace and
mixed case, with an oracle that would fail on any file access. -/
theorem c9_sentinel_witness :
    get_function_signature true (fun _ => FileRes.notFound)
      (fun _ _ => none) "/m.py:: <Module> " = .ok [] [] [] [] :=
  c9_sentinel_signature true (fun _ => FileRes.notFound) (fun _ _ => none)
    "/m.py:: <Module> " "/m.py" " <Module> " (by decide) (by decide) (by decide)

/-! ## C10 — unparseable interactive requests are skipped -/

/-- C10: a non-empty request other than `"0"` that fails to parse as an
integer or as a valid JSON target is skipped: the session does not end,
nothing is emitted, and the Flow's journal and served cursor are exactly
as before. -/
theorem c10_unparseable_input_skipped (jsonParse : String → Option JsonV)
    (abspathFn : String → String) (repoRoot effectiveFnName : String)
    (newEvents : List FlowEvent) (workerOk : Bool) (flow : LinearFlow)
    (rawInput : String) (msg : String)
    (h1 : pyStrip rawInput ≠ "") (h2 : pyStrip rawInput ≠ "0")
    (h3 : parse_flow_target_from_input jsonParse abspathFn repoRoot
      effectiveFnName (pyStrip rawInput) = .error msg) :
    interactive_step jsonParse abspathFn repoRoot effectiveFnName newEvents
      workerOk flow rawInput = ⟨.continued, flow, []⟩ := by
  unfold interactive_step
  simp only [h1, h2, h3]
  simp

/-- C10 witness: the request `"abc"` is neither an integer nor JSON, and
one loop iteration leaves an empty recorder untouched and emits nothing. -/
theorem c10_unparseable_witness :
    interactive_step (fun _ => none) id "/repo" "main" [] true
      ⟨[], -1⟩ "abc" = ⟨.continued, ⟨[], -1⟩, []⟩ :=
  c10_unparseable_input_skipped (fun _ => none) id "/repo" "main" [] true
    ⟨[], -1⟩ "abc" "invalid integer request" (by decide) (by decide) rfl
